import Mathlib

/-!
Formal model of the utility-bill pipeline (bill extraction, normalization,
aggregation and email-draft generation).

Strings are modelled as lists of Unicode code points (`Str := List ℕ`),
matching Python's view of `str` as a sequence of code points.  Python
`float` values are modelled as exact rationals together with an explicit
IEEE-754 binary64 round-to-nearest-even operation (`fRound`); the parts of
the pipeline whose claims do not concern rounding are modelled with exact
rational arithmetic, and the rounding performed by the Python runtime is
modelled separately by `code_total_utilities` / `code_final_amount`.
-/

namespace BillPipeline

/-- Strings as lists of Unicode code points. -/
abbrev Str := List ℕ

/-- Convert a Lean string literal to its code-point list. -/
def strOf (s : String) : Str := s.data.map Char.toNat

/-- ASCII decimal digit (regex `\d`, ASCII semantics). -/
def isDigitCode (c : ℕ) : Bool := 48 ≤ c && c ≤ 57

/-- Python `str.strip` / regex `\s` whitespace (ASCII part). -/
def isSpaceCode (c : ℕ) : Bool :=
  c == 32 || c == 9 || c == 10 || c == 13 || c == 11 || c == 12

/-- Regex word character `\w` (ASCII semantics). -/
def isWordCode (c : ℕ) : Bool :=
  (48 ≤ c && c ≤ 57) || (65 ≤ c && c ≤ 90) || (97 ≤ c && c ≤ 122) || c == 95

/-- ASCII upper-casing of a code point (Python `str.upper` on ASCII data). -/
def upperC (c : ℕ) : ℕ := if 97 ≤ c ∧ c ≤ 122 then c - 32 else c

/-- Drop trailing characters satisfying `p` (helper for `pystrip`). -/
def rstripBy (p : ℕ → Bool) (l : Str) : Str := (l.reverse.dropWhile p).reverse

/-- Python `str.strip()`: remove leading and trailing whitespace. -/
def pystrip (l : Str) : Str := rstripBy isSpaceCode (l.dropWhile isSpaceCode)

/-- Decimal rendering of a natural number, fuel-indexed so that it reduces
in the kernel; `fuel` must exceed the number of digits. -/
def renderNatFuel : ℕ → ℕ → Str
  | 0, _ => []
  | f + 1, n => if n < 10 then [48 + n] else renderNatFuel f (n / 10) ++ [48 + n % 10]

/-- Decimal rendering of a natural number (Python `str(n)` for `n ≥ 0`). -/
def renderNat (n : ℕ) : Str := renderNatFuel (n + 1) n

/-- Python `str(n)` for an integer. -/
def renderInt (n : ℤ) : Str := if n < 0 then 45 :: renderNat n.natAbs else renderNat n.toNat

/-- Python zero-padded formatting `f"{n:0wd}"` for a natural number. -/
def padNat (w n : ℕ) : Str := List.replicate (w - (renderNat n).length) 48 ++ renderNat n

/-- Value of a list of ASCII digit codes, most significant first (tail-recursive
accumulator form). -/
def digitsValGo : ℕ → Str → ℕ
  | acc, [] => acc
  | acc, c :: r => digitsValGo (10 * acc + (c - 48)) r

/-- Value of a list of ASCII digit codes, most significant first. -/
def digitsVal (l : Str) : ℕ := digitsValGo 0 l

/-- Case-insensitive string equality (ASCII case folding), as used by
`re.IGNORECASE` and `strptime` month-name matching. -/
def ciEqStr (a b : Str) : Bool := a.map upperC == b.map upperC

/-- Lexicographic order on code-point strings, as used by Python `sorted`
on `str`. -/
def lexLe : Str → Str → Bool
  | [], _ => true
  | _ :: _, [] => false
  | a :: x, b :: y => if a < b then true else if b < a then false else lexLe x y

/-- Insert into a lexicographically sorted list (helper for `sortedLex`). -/
def insertLex (s : Str) : List Str → List Str
  | [] => [s]
  | t :: ts => if lexLe s t then s :: t :: ts else t :: insertLex s ts

/-- Python `sorted` on a list of strings (insertion sort; Python's sort is
stable, and stable sorts by the same key agree). -/
def sortedLex : List Str → List Str
  | [] => []
  | s :: ss => insertLex s (sortedLex ss)

/-! ## Calendar model (Python `datetime` / `calendar`, proleptic Gregorian) -/

/-- A calendar date.  The `datetime` MINYEAR/MAXYEAR bounds (1..9999) are not
built into the type; theorems that depend on them carry them as hypotheses. -/
structure Date where
  year : ℕ
  month : ℕ
  day : ℕ
deriving DecidableEq, Repr

/-- Gregorian leap-year rule (Python `calendar.isleap`). -/
def is_leap (y : ℕ) : Bool := y % 4 == 0 && (y % 100 != 0 || y % 400 == 0)

/-- Number of days in a month (Python `calendar.monthrange(y, m)[1]`). -/
def month_len (y m : ℕ) : ℕ :=
  if m = 2 then (if is_leap y then 29 else 28)
  else if m = 4 ∨ m = 6 ∨ m = 9 ∨ m = 11 then 30
  else 31

/-- The day after a given date (one `timedelta(days=1)` step). -/
def next_day (d : Date) : Date :=
  if d.day < month_len d.year d.month then ⟨d.year, d.month, d.day + 1⟩
  else if d.month < 12 then ⟨d.year, d.month + 1, 1⟩
  else ⟨d.year + 1, 1, 1⟩

/-- Adding `n` days to a date (`date + timedelta(days=n)`). -/
def add_days : ℕ → Date → Date
  | 0, d => d
  | n + 1, d => add_days n (next_day d)

/-- The day before a given date (`date - timedelta(days=1)`). -/
def prev_day (d : Date) : Date :=
  if 1 < d.day then ⟨d.year, d.month, d.day - 1⟩
  else if 1 < d.month then ⟨d.year, d.month - 1, month_len d.year (d.month - 1)⟩
  else ⟨d.year - 1, 12, 31⟩

/-- English month name (`strftime("%B")`). -/
def month_name (m : ℕ) : Str :=
  match m with
  | 1 => strOf ("January")
  | 2 => strOf ("February")
  | 3 => strOf ("March")
  | 4 => strOf ("April")
  | 5 => strOf ("May")
  | 6 => strOf ("June")
  | 7 => strOf ("July")
  | 8 => strOf ("August")
  | 9 => strOf ("September")
  | 10 => strOf ("October")
  | 11 => strOf ("November")
  | 12 => strOf ("December")
  | _ => []

/-- Month number from an English month name, case-insensitively
(`strptime` directive `%B`). -/
def month_from_name (s : Str) : Option ℕ :=
  ((List.range 12).find? (fun i => ciEqStr s (month_name (i + 1)))).map (· + 1)

/-! ## Bill extractors (`src/bill_extractors.py`)

House-number extraction models the regex of `extract_enmax_from_pdf`
(line 50): `(house)\w{0,4}(?:AVE|ST|STREET|AVENUE|RD|ROAD|BLVD|BOULEVARD|DR|
DRIVE|WAY|LANE|LN|CT|COURT|PL|PLACE)` searched case-insensitively, with the
roster tried in decreasing length order (`sorted(houses, key=len,
reverse=True)`, a stable sort).  Amount extraction models the regexes at
lines 56-59 (ENMAX) and 120-123 (ATCO); the optional / starred pieces are
matched greedily without backtracking, which coincides with the regex
semantics for these patterns because no starred class overlaps the token
that must follow it. -/

/-- Case-insensitive literal match of `p` at the start of `t`. -/
def ciPrefixOf : Str → Str → Bool
  | [], _ => true
  | _ :: _, [] => false
  | a :: p, b :: t => upperC a == upperC b && ciPrefixOf p t

/-- Street-suffix alternation of the ENMAX house regex. -/
def STREET_SUFFIX_TOKENS : List Str :=
  [strOf ("AVE"), strOf ("ST"), strOf ("STREET"), strOf ("AVENUE"), strOf ("RD"),
   strOf ("ROAD"), strOf ("BLVD"), strOf ("BOULEVARD"), strOf ("DR"), strOf ("DRIVE"),
   strOf ("WAY"), strOf ("LANE"), strOf ("LN"), strOf ("CT"), strOf ("COURT"),
   strOf ("PL"), strOf ("PLACE")]

/-- One of the street-suffix tokens matches at this position. -/
def suffix_here (t : Str) : Bool := STREET_SUFFIX_TOKENS.any (fun suf => ciPrefixOf suf t)

/-- Regex `\w{0,4}` followed by a street-suffix token: up to `k` word
characters may be skipped before the suffix. -/
def gap_then_suffix : ℕ → Str → Bool
  | 0, t => suffix_here t
  | k + 1, t =>
    suffix_here t ||
      (match t with
       | [] => false
       | c :: r => isWordCode c && gap_then_suffix k r)

/-- The house pattern `(house)\w{0,4}(STREET-SUFFIX)` matches at the start
of `t`. -/
def street_match_here (house t : Str) : Bool :=
  ciPrefixOf house t && gap_then_suffix 4 (t.drop house.length)

/-- `re.search` of the house pattern anywhere in the text. -/
def street_search (house : Str) : Str → Bool
  | [] => street_match_here house []
  | c :: r => street_match_here house (c :: r) || street_search house r

/-- Insert into a list sorted by decreasing length, after entries of equal
length (so the overall sort is stable, like Python's). -/
def insert_len_desc (x : Str) : List Str → List Str
  | [] => [x]
  | y :: ys => if y.length < x.length then x :: y :: ys else y :: insert_len_desc x ys

/-- Python `sorted(houses, key=len, reverse=True)`: stable sort by
decreasing length. -/
def sort_len_desc : List Str → List Str
  | [] => []
  | x :: xs => insert_len_desc x (sort_len_desc xs)

/-- House-number extraction loop of `extract_enmax_from_pdf` (lines 46-54):
try roster entries longest first, return the first whose street pattern
matches the text. -/
def extract_house_number (houses : List Str) (text : Str) : Option Str :=
  (sort_len_desc houses).find? (fun h => street_search h text)

/-- Tail of the ENMAX amount regex after the dollar sign:
`\s*([\d]+\.\d{2})`; returns the captured token. -/
def enmax_tail (t : Str) : Option Str :=
  let t1 := t.dropWhile isSpaceCode
  let ds := t1.takeWhile isDigitCode
  let r := t1.drop ds.length
  if ds = [] then none
  else
    match r with
    | 46 :: a :: b :: _ => if isDigitCode a && isDigitCode b then some (ds ++ [46, a, b]) else none
    | _ => none

/-- Lazy `.*?\$` of the ENMAX amount regex: scan forward (never across a
newline, since `.` does not match one) for a `$` whose tail matches. -/
def dollar_scan : Str → Option Str
  | [] => none
  | c :: r =>
    if c = 10 then none
    else if c = 36 then
      match enmax_tail r with
      | some a => some a
      | none => dollar_scan r
    else dollar_scan r

/-- `re.search` for the ENMAX amount regex
`(PreAuthorizedAmount.*?\$|TotalCurrentCharges.*?\$)\s*([\d]+\.\d{2})`
(case-insensitive); returns group 2, the `bill_amount` of
`extract_enmax_from_pdf` (lines 56-60). -/
def extract_enmax_amount : Str → Option Str
  | [] => none
  | c :: r =>
    match (if ciPrefixOf (strOf ("PreAuthorizedAmount")) (c :: r)
           then dollar_scan ((c :: r).drop 19) else none) with
    | some a => some a
    | none =>
      match (if ciPrefixOf (strOf ("TotalCurrentCharges")) (c :: r)
             then dollar_scan ((c :: r).drop 19) else none) with
      | some a => some a
      | none => extract_enmax_amount r

/-- Regex `\s+`: at least one whitespace character, consumed greedily. -/
def ws1 : Str → Option Str
  | [] => none
  | c :: r => if isSpaceCode c then some ((c :: r).dropWhile isSpaceCode) else none

/-- The ATCO amount label alternation `TOTAL\s+AMOUNT\s+DUE|Amount\s+Due`
matched case-insensitively at this position; returns the rest of the text. -/
def atco_label (t : Str) : Option Str :=
  match (if ciPrefixOf (strOf ("TOTAL")) t then ws1 (t.drop 5) else none) with
  | some t1 =>
    if ciPrefixOf (strOf ("AMOUNT")) t1 then
      match ws1 (t1.drop 6) with
      | some t2 => if ciPrefixOf (strOf ("DUE")) t2 then some (t2.drop 3) else none
      | none => none
    else none
  | none =>
    if ciPrefixOf (strOf ("Amount")) t then
      match ws1 (t.drop 6) with
      | some t1 => if ciPrefixOf (strOf ("Due")) t1 then some (t1.drop 3) else none
      | none => none
    else none

/-- Tail of the ATCO amount regex after the label:
`\s*:?\s*\$?\s*([\d,]+\.\d{2})`; returns the captured token. -/
def atco_tail (t : Str) : Option Str :=
  let t1 := t.dropWhile isSpaceCode
  let t2 := match t1 with | 58 :: r => r | _ => t1
  let t3 := t2.dropWhile isSpaceCode
  let t4 := match t3 with | 36 :: r => r | _ => t3
  let t5 := t4.dropWhile isSpaceCode
  let ds := t5.takeWhile (fun c => isDigitCode c || c == 44)
  let r := t5.drop ds.length
  if ds = [] then none
  else
    match r with
    | 46 :: a :: b :: _ => if isDigitCode a && isDigitCode b then some (ds ++ [46, a, b]) else none
    | _ => none

/-- `re.search` for the ATCO amount regex over the whole text; returns the
captured group. -/
def atco_search : Str → Option Str
  | [] => none
  | c :: r =>
    match atco_label (c :: r) with
    | some rest =>
      match atco_tail rest with
      | some tok => some tok
      | none => atco_search r
    | none => atco_search r

/-- ATCO `bill_amount` (lines 120-124): the captured group with thousands
separators stripped (`.replace(",", "")`). -/
def extract_atco_amount (text : Str) : Option Str :=
  (atco_search text).map (List.filter (fun c => c != 44))

/-- The function `_get_previous_month` of `src/bill_extractors.py`
(lines 91-104): previous month with year rollover.  Python integers are
unbounded, hence `ℤ`. -/
def _get_previous_month (month year : ℤ) : ℤ × ℤ :=
  if month = 1 then (12, year - 1) else (month - 1, year)

/-- The `bill_date` computed by `extract_atco_from_pdf` (lines 136-140)
from the parsed due-by month and year:
`f"{prev_year}-{prev_month:02d}-01"`. -/
def atco_bill_date (due_month due_year : ℤ) : Str :=
  let p := _get_previous_month due_month due_year
  renderInt p.2 ++ [45] ++ padNat 2 p.1.toNat ++ strOf ("-01")

/-! ## Normalizer (`src/data_processing.py`, `normalize_row`, lines 16-54)

Row fields hold the Python values that actually flow through the pipeline:
`vendor` and `bill_date` are strings or `None`; `bill_amount` and
`house_number` may additionally be numbers.  `float` values are modelled as
exact rationals (the stored binary64 value); `float(x)` applied to an
existing number is the identity on that value.  String-to-number coercion
models the core of Python `float(str)` / `int(str)` (optional sign, digits,
decimal point; exponent, underscore, and inf/nan forms are not modelled,
as no pipeline value uses them). -/

/-- A Python value as found in a bill-record field. -/
inductive PyVal where
  | vNone
  | vStr (s : Str)
  | vFloat (q : ℚ)
  | vInt (n : ℤ)
deriving DecidableEq, Repr

/-- A bill record (the dict passed to `normalize_row`). -/
structure RawRow where
  vendor : Option Str
  bill_amount : PyVal
  bill_date : Option Str
  house_number : PyVal
deriving DecidableEq, Repr

/-- Python `float(s)` on a stripped decimal string (sign, integer part,
optional fractional part). -/
def py_float_str (s0 : Str) : Option ℚ :=
  let s := pystrip s0
  let sg : ℚ × Str :=
    match s with
    | 43 :: r => (1, r)
    | 45 :: r => (-1, r)
    | _ => (1, s)
  let ip := sg.2.takeWhile isDigitCode
  let r2 := sg.2.drop ip.length
  match r2 with
  | [] => if ip = [] then none else some (sg.1 * digitsVal ip)
  | 46 :: r3 =>
    let fp := r3.takeWhile isDigitCode
    if r3.drop fp.length ≠ [] then none
    else if ip = [] ∧ fp = [] then none
    else some (sg.1 * ((digitsVal ip : ℚ) + (digitsVal fp : ℚ) / 10 ^ fp.length))
  | _ => none

/-- Python `int(s)` on a string (sign and digits, nothing else). -/
def py_int_str (s0 : Str) : Option ℤ :=
  let s := pystrip s0
  let sg : ℤ × Str :=
    match s with
    | 43 :: r => (1, r)
    | 45 :: r => (-1, r)
    | _ => (1, s)
  if sg.2 ≠ [] ∧ sg.2.all isDigitCode then some (sg.1 * digitsVal sg.2) else none

/-- Python `float(x)`; `none` models an exception. -/
def py_float : PyVal → Option ℚ
  | .vNone => none
  | .vStr s => py_float_str s
  | .vFloat q => some q
  | .vInt n => some (n : ℚ)

/-- Python `int(x)`; `none` models an exception.  `int` of a float
truncates toward zero. -/
def py_int : PyVal → Option ℤ
  | .vNone => none
  | .vStr s => py_int_str s
  | .vFloat q => some (q.num / (q.den : ℤ))
  | .vInt n => some n

/-- Regex `re.fullmatch(r"\d{4}-\d{2}-\d{2}", s)` (line 36); 45 is the
dash. -/
def is_strict_date (s : Str) : Bool :=
  match s with
  | [c1, c2, c3, c4, s1, m1, m2, s2, d1, d2] =>
    isDigitCode c1 && isDigitCode c2 && isDigitCode c3 && isDigitCode c4 &&
      s1 == 45 && isDigitCode m1 && isDigitCode m2 &&
      s2 == 45 && isDigitCode d1 && isDigitCode d2
  | _ => false

/-- Regex fullmatch of four digits, a separator (slash or dash), one or two
digits, a separator, and one or two digits (line 40), returning the three
numeric groups. -/
def parse_loose_date (s : Str) : Option (ℕ × ℕ × ℕ) :=
  let ys := s.takeWhile isDigitCode
  let r1 := s.drop ys.length
  if ys.length ≠ 4 then none
  else
    match r1 with
    | sep1 :: r2 =>
      if sep1 = 45 ∨ sep1 = 47 then
        let ms := r2.takeWhile isDigitCode
        let r3 := r2.drop ms.length
        if ms.length = 1 ∨ ms.length = 2 then
          match r3 with
          | sep2 :: r4 =>
            if sep2 = 45 ∨ sep2 = 47 then
              let ds := r4.takeWhile isDigitCode
              let r5 := r4.drop ds.length
              if (ds.length = 1 ∨ ds.length = 2) ∧ r5 = [] then
                some (digitsVal ys, digitsVal ms, digitsVal ds)
              else none
            else none
          | [] => none
        else none
      else none
    | [] => none

/-- Normalized vendor field: `(row.get("vendor") or "").strip().upper()`,
kept if known, `"UNKNOWN"` if empty, otherwise kept as uppercased
(lines 20-25). -/
def norm_vendor (v0 : Option Str) : Str :=
  let v := (pystrip (v0.getD [])).map upperC
  if v = strOf ("ENMAX") ∨ v = strOf ("ATCO") then v
  else if v = [] then strOf ("UNKNOWN") else v

/-- Normalized amount field (lines 28-32). -/
def norm_amount (a : PyVal) : PyVal :=
  if a = .vNone ∨ a = .vStr [] then .vNone
  else
    match py_float a with
    | some q => .vFloat q
    | none => .vNone

/-- Normalized date field (lines 35-45). -/
def norm_date (d0 : Option Str) : Option Str :=
  let ds := pystrip (d0.getD [])
  if is_strict_date ds then some ds
  else
    match parse_loose_date ds with
    | some (y, mo, dd) => some (padNat 4 y ++ [45] ++ padNat 2 mo ++ [45] ++ padNat 2 dd)
    | none => none

/-- Normalized house-number field (lines 48-52): integer coercion if
possible, otherwise left as-is. -/
def norm_house (h : PyVal) : PyVal :=
  match py_int h with
  | some n => .vInt n
  | none => h

/-- The function `normalize_row` of `src/data_processing.py`. -/
def normalize_row (r : RawRow) : RawRow :=
  { vendor := some (norm_vendor r.vendor)
    bill_amount := norm_amount r.bill_amount
    bill_date := norm_date r.bill_date
    house_number := norm_house r.house_number }

/-! ## Email drafts (`src/email_drafts.py`)

The attachment store is modelled by a predicate `ex : Str → Bool` on image
file names (the images folder is a fixed prefix shared by every path, so
existence checks and the sort order of the produced paths depend only on
the file name).  Tenant data (`excel.get_tenant_data`, which falls back to
a default profile and never raises) is modelled by a total function
`tenants : Str → Tenant`.  Currency arithmetic in this section is exact
rational arithmetic; the binary64 rounding the Python runtime performs on
the same lines is modelled separately below. -/

/-- A house policy (required vendors and template kind). -/
structure HousePolicy where
  required_vendors : List Str
  template : Str
deriving DecidableEq, Repr

/-- The table `HOUSE_POLICIES` (lines 34-38). -/
def default_policy : HousePolicy :=
  { required_vendors := [strOf ("ENMAX")], template := strOf ("single_vendor") }

/-- Specific entries of the `HOUSE_POLICIES` dict, in insertion order. -/
def HOUSE_POLICIES : List (Str × HousePolicy) :=
  [(strOf ("1705"),
    { required_vendors := [strOf ("ENMAX"), strOf ("ATCO")], template := strOf ("dual_vendor") }),
   (strOf ("1707"),
    { required_vendors := [strOf ("ENMAX"), strOf ("ATCO")], template := strOf ("dual_vendor") }),
   (strOf ("default"), default_policy)]

/-- The function `_get_house_policy` (lines 77-78):
`HOUSE_POLICIES.get(str(house), HOUSE_POLICIES["default"])`. -/
def _get_house_policy (house : Str) : HousePolicy :=
  (HOUSE_POLICIES.lookup house).getD default_policy

/-- One entry of a `bills_for_month` list (vendor, float amount, ISO date). -/
structure Bill where
  vendor : Str
  amount : ℚ
  date : Str
deriving DecidableEq, Repr

/-- Expected image file name (line 94-96):
`f"{house} {bill_date[:7]} {vendor}.png"`. -/
def img_name (house date vendor : Str) : Str :=
  house ++ strOf (" ") ++ date.take 7 ++ strOf (" ") ++ vendor ++ strOf (".png")

/-- Errors raised on the draft-generation path.  Constructors name the
program point that raises; `no_images_found` is the `ValueError` raised
inside `find_house_utility_images` (line 110), `no_images_guard` the
`ValueError` of the guard in `create_email_draft` (line 123), and
`unbound_local_image_paths` the `UnboundLocalError` that reading the
never-assigned local `image_paths` raises at line 122. -/
inductive DraftErr where
  | missing_required_vendors (house month_date : Str) (missing : List Str)
  | no_images_found (house month_date : Str)
  | no_images_guard (house month_date : Str)
  | unbound_local_image_paths
deriving DecidableEq, Repr

/-- The function `find_house_utility_images` (lines 80-112). -/
def find_house_utility_images (ex : Str → Bool) (house month_date : Str)
    (bills_data : List Bill) : Except DraftErr (List Str) :=
  let found := bills_data.filter (fun b => ex (img_name house b.date b.vendor))
  let image_paths := found.map (fun b => img_name house b.date b.vendor)
  let vendors_found := found.map (fun b => b.vendor)
  let required_vendors := (_get_house_policy house).required_vendors
  let missing_vendors := required_vendors.filter (fun v => !vendors_found.contains v)
  if required_vendors ≠ [] ∧ missing_vendors ≠ [] then
    Except.error (.missing_required_vendors house month_date missing_vendors)
  else if image_paths = [] then Except.error (.no_images_found house month_date)
  else Except.ok (sortedLex image_paths)

/-- Decidable equality for `Except` results (used to evaluate the model on
concrete inputs). -/
instance instDecidableEqExcept {ε α : Type} [DecidableEq ε] [DecidableEq α] :
    DecidableEq (Except ε α) := fun a b =>
  match a, b with
  | .error x, .error y =>
    match decEq x y with
    | isTrue h => isTrue (congrArg Except.error h)
    | isFalse h => isFalse (fun c => h (Except.error.inj c))
  | .ok x, .ok y =>
    match decEq x y with
    | isTrue h => isTrue (congrArg Except.ok h)
    | isFalse h => isFalse (fun c => h (Except.ok.inj c))
  | .error _, .ok _ => isFalse (fun c => Except.noConfusion c)
  | .ok _, .error _ => isFalse (fun c => Except.noConfusion c)

/-- A tenant profile as returned by `excel.get_tenant_data`. -/
structure Tenant where
  tenant_name : Str
  base_rent : ℚ
  utility_share_percent : ℚ
deriving DecidableEq, Repr

/-- Parse of `datetime.strptime(month_date, "%Y-%m-%d")` (line 143) on the
canonical zero-padded form, including the calendar-validity checks
`strptime` performs.  (`%m`/`%d` also accept single-digit forms; every
period date produced by the pipeline is zero-padded, so they are not
modelled.) -/
def parse_iso_date (s : Str) : Option Date :=
  match s with
  | [c1, c2, c3, c4, s1, m1, m2, s2, d1, d2] =>
    if isDigitCode c1 && isDigitCode c2 && isDigitCode c3 && isDigitCode c4 &&
        s1 == 45 && isDigitCode m1 && isDigitCode m2 &&
        s2 == 45 && isDigitCode d1 && isDigitCode d2 then
      let y := digitsVal [c1, c2, c3, c4]
      let m := digitsVal [m1, m2]
      let d := digitsVal [d1, d2]
      if 1 ≤ y ∧ 1 ≤ m ∧ m ≤ 12 ∧ 1 ≤ d ∧ d ≤ month_len y m then some ⟨y, m, d⟩ else none
    else none
  | _ => none

/-- First day of the month following the billing period, computed as in
lines 143-147: `bill_dt.replace(day=1) + timedelta(days=32)`, then
`.replace(day=1)`. -/
def rent_month_date (month_date : Str) : Option Date :=
  match parse_iso_date month_date with
  | some d =>
    let n := add_days 32 ⟨d.year, d.month, 1⟩
    some ⟨n.year, n.month, 1⟩
  | none => none

/-- The displayed rent date (lines 138-152): month name of the following
month plus `" 01"`; on a parse failure the bare `except` falls back to the
input string. -/
def rent_date_of (month_date : Str) : Str :=
  match rent_month_date month_date with
  | some n => month_name n.month ++ strOf (" 01")
  | none => month_date

/-- Python `s.split()[0]`: first whitespace-separated token. -/
def py_split_first (s : Str) : Str :=
  (s.dropWhile isSpaceCode).takeWhile (fun c => !isSpaceCode c)

/-- The draft subject (lines 168-181): re-parse the rendered rent-date
string with the hardcoded year 2025 (`strptime(rent_date.split()[0] +
" 2025", "%B %Y")`), step back one day from the first of that month, go to
the first of the resulting month, and use its month name; if the token is
not a month name, the `except` branch uses the token itself. -/
def subject_of (rent_date : Str) : Str :=
  let tok := py_split_first rent_date
  match month_from_name tok with
  | some m =>
    let d1 := prev_day ⟨2025, m, 1⟩
    month_name (Date.mk d1.year d1.month 1).month ++ strOf (" utility bill")
  | none => tok ++ strOf (" utility bill")

/-- The draft content assembled by `create_email_draft` (rendering of the
body text and the MIME wrapper are I/O and not modelled; the fields below
are the values substituted into them). -/
structure Draft where
  subject : Str
  rent_date : Str
  attachments : List Str
  final_amount : ℚ
  template : Str
deriving DecidableEq, Repr

/-- The function `create_email_draft` (lines 114-199).  When `bills_data`
is `None` or empty, the `if bills_data:` guard skips the assignment of
`image_paths` and the subsequent `if not image_paths:` read raises
`UnboundLocalError`. -/
def create_email_draft (ex : Str → Bool) (tenants : Str → Tenant)
    (house month_date : Str) (total_utilities : ℚ)
    (bills_data : Option (List Bill)) : Except DraftErr Draft :=
  match bills_data with
  | none => Except.error .unbound_local_image_paths
  | some bills =>
    if bills = [] then Except.error .unbound_local_image_paths
    else
      match find_house_utility_images ex house month_date bills with
      | Except.error e => Except.error e
      | Except.ok image_paths =>
        if image_paths = [] then Except.error (.no_images_guard house month_date)
        else
          let t := tenants house
          let utility_share_amount := t.utility_share_percent / 100 * total_utilities
          let final_amount := t.base_rent + utility_share_amount
          let rd := rent_date_of month_date
          let policy := _get_house_policy house
          Except.ok
            { subject := subject_of rd
              rent_date := rd
              attachments := image_paths
              final_amount := final_amount
              template := policy.template }

/-- Line 388: `total_utilities = sum(b['amount'] for b in bills_for_month)`
(exact-rational reading; see `code_total_utilities` for the float one). -/
def total_utilities (bills : List Bill) : ℚ :=
  bills.foldl (fun acc b => acc + b.amount) 0

/-- Python `dict` insertion: update the value in place if the key exists,
otherwise append the binding. -/
def dict_insert (d : List (Str × ℚ)) (k : Str) (v : ℚ) : List (Str × ℚ) :=
  if d.any (fun p => decide (p.1 = k)) then
    d.map (fun p => if p.1 = k then (k, v) else p)
  else d ++ [(k, v)]

/-- Line 391: `vendor_breakdown = {b['vendor']: b['amount'] for b in
bills_for_month}` — a dict comprehension, so a repeated vendor key is
overwritten by the later record. -/
def vendor_breakdown (bills : List Bill) : List (Str × ℚ) :=
  bills.foldl (fun d b => dict_insert d b.vendor b.amount) []

/-- Python `sum(d.values())` over a dict in insertion order. -/
def dict_values_sum (d : List (Str × ℚ)) : ℚ :=
  (d.map Prod.snd).foldl (· + ·) 0

/-- One house's group as produced by `_group_bills_by_house`: the chosen
month date and that month's bills. -/
structure HouseGroup where
  house : Str
  month_date : Str
  bills : List Bill
deriving DecidableEq, Repr

/-- The per-house body of the loop in `generate_email_drafts`
(lines 386-404): compute the total and breakdown and build the draft; an
exception is caught per house (`except ... continue`) and modelled by the
`Except` result. -/
def process_house (ex : Str → Bool) (tenants : Str → Tenant) (g : HouseGroup) :
    Except DraftErr Draft :=
  create_email_draft ex tenants g.house g.month_date (total_utilities g.bills)
    (some g.bills)

/-- The loop of `generate_email_drafts` over the grouped houses: each house
is processed independently and its success or failure recorded. -/
def generate_email_drafts (ex : Str → Bool) (tenants : Str → Tenant)
    (groups : List HouseGroup) : List (Str × Except DraftErr Draft) :=
  groups.map (fun g => (g.house, process_house ex tenants g))

/-! ## Binary64 model of the pipeline's currency arithmetic

`normalize_row` / `_group_bills_by_house` store amounts with `float(...)`,
`generate_email_drafts` line 388 sums them with `sum(...)`, and
`create_email_draft` lines 133-135 compute the share and final amount —
all in Python `float`, i.e. IEEE-754 binary64.  `fRound` is
round-to-nearest-even to 53 significant bits over the exact rationals
(normal range only; the pipeline's currency values are far from the
subnormal and overflow ranges). -/

/-- Fuel-indexed floor of the base-2 logarithm (kernel-reducible). -/
def log2fuel : ℕ → ℕ → ℕ
  | 0, _ => 0
  | f + 1, n => if n < 2 then 0 else 1 + log2fuel f (n / 2)

/-- Floor of the base-2 logarithm of a natural number. -/
def log2Nat (n : ℕ) : ℕ := log2fuel n n

/-- Ceiling of the base-2 logarithm of a natural number. -/
def clog2Nat (n : ℕ) : ℕ := if n ≤ 1 then 0 else log2Nat (n - 1) + 1

/-- The rational `2 ^ e` for an integer exponent. -/
def pow2 (e : ℤ) : ℚ :=
  match e with
  | .ofNat n => 2 ^ n
  | .negSucc n => 1 / 2 ^ (n + 1)

/-- Exponent `e` with `2 ^ e ≤ q < 2 ^ (e + 1)` for a positive rational. -/
def intLog2 (q : ℚ) : ℤ :=
  if 1 ≤ q then (log2Nat (⌊q⌋).toNat : ℤ)
  else -(clog2Nat (⌈q⁻¹⌉).toNat : ℤ)

/-- Round a scaled significand to the nearest integer, ties to even. -/
def roundHalfEven (s : ℚ) : ℤ :=
  let f : ℤ := ⌊s⌋
  let r : ℚ := s - f
  if r < 1/2 then f
  else if 1/2 < r then f + 1
  else if f % 2 = 0 then f else f + 1

/-- Round an exact rational to the nearest IEEE-754 binary64 value
(round-to-nearest-even, 53-bit significand, normal range). -/
def fRound (q : ℚ) : ℚ :=
  if q = 0 then 0
  else
    let a : ℚ := if q < 0 then -q else q
    let ulp : ℚ := pow2 (intLog2 a - 52)
    (roundHalfEven (q / ulp) : ℚ) * ulp

/-- Binary64 addition: exact sum, then rounding. -/
def fAdd (x y : ℚ) : ℚ := fRound (x + y)

/-- Binary64 multiplication. -/
def fMul (x y : ℚ) : ℚ := fRound (x * y)

/-- Binary64 division. -/
def fDiv (x y : ℚ) : ℚ := fRound (x / y)

/-- Python `sum(...)` over floats: left fold of binary64 addition starting
from the exact integer 0. -/
def pySum (l : List ℚ) : ℚ := l.foldl fAdd 0

/-- Line 388 as executed by the runtime: each amount is a `float`
(`float(amount)` at lines 275/305 of the grouping, itself fed by
`normalize_row`), and the total is the float sum. -/
def code_total_utilities (amounts : List ℚ) : ℚ := pySum (amounts.map fRound)

/-- Lines 133-135 as executed by the runtime:
`(utility_share_percent / 100) * total_utilities` and
`base_rent + utility_share_amount` in float arithmetic. -/
def code_final_amount (base_rent share_percent total : ℚ) : ℚ :=
  fAdd (fRound base_rent) (fMul (fDiv share_percent 100) total)

/-- The total demanded by the specification: the exact-decimal sum of the
amounts. -/
def exact_total (amounts : List ℚ) : ℚ := amounts.foldl (· + ·) 0

/-- The final amount demanded by the specification:
`base_rent + utility_share_percent/100 * total`, exactly. -/
def exact_final (base_rent share_percent total : ℚ) : ℚ :=
  base_rent + share_percent / 100 * total

/-! ## Theorems -/

attribute [local semireducible] Rat.add Rat.mul Rat.inv Rat.sub Rat.ofScientific

/-- Folding addition from an accumulator equals the accumulator plus the
list sum. -/
theorem foldl_add_eq (l : List ℚ) (a : ℚ) : l.foldl (· + ·) a = a + l.sum := by
  induction l generalizing a with
  | nil => simp
  | cons x t ih => simp only [List.foldl_cons, ih, List.sum_cons]; ring

/-- The total is the sum of the amounts. -/
theorem total_utilities_eq_sum (bills : List Bill) :
    total_utilities bills = (bills.map (fun b => b.amount)).sum := by
  suffices h : ∀ a : ℚ, bills.foldl (fun acc b => acc + b.amount) a
      = a + (bills.map (fun b => b.amount)).sum by
    simpa [total_utilities] using h 0
  induction bills with
  | nil => simp
  | cons x t ih => intro a; simp only [List.foldl_cons, ih, List.map_cons, List.sum_cons]; ring

/-- Inserting a fresh key into a dict appends the binding. -/
theorem dict_insert_fresh (d : List (Str × ℚ)) (k : Str) (v : ℚ)
    (h : ∀ p ∈ d, p.1 ≠ k) : dict_insert d k v = d ++ [(k, v)] := by
  unfold dict_insert
  have hany : d.any (fun p => decide (p.1 = k)) = false := by
    simp only [List.any_eq_false]
    intro p hp
    simpa using h p hp
  simp [hany]

/-- Building the breakdown from records with pairwise distinct vendors,
none of which occurs in the accumulator, appends one binding per record. -/
theorem breakdown_fold_distinct (bills : List Bill) :
    ∀ d : List (Str × ℚ),
      (∀ b ∈ bills, ∀ p ∈ d, p.1 ≠ b.vendor) →
      bills.Pairwise (fun a b => a.vendor ≠ b.vendor) →
      bills.foldl (fun d b => dict_insert d b.vendor b.amount) d
        = d ++ bills.map (fun b => (b.vendor, b.amount)) := by
  induction bills with
  | nil => intro d _ _; simp
  | cons x t ih =>
    intro d hd hp
    have hfresh : ∀ p ∈ d, p.1 ≠ x.vendor := fun p hp' => hd x (by simp) p hp'
    have hp' := (List.pairwise_cons.mp hp)
    simp only [List.foldl_cons, dict_insert_fresh d x.vendor x.amount hfresh]
    rw [ih (d ++ [(x.vendor, x.amount)])]
    · simp
    · intro b hb p hpmem
      rcases List.mem_append.mp hpmem with hpd | hpx
      · exact hd b (List.mem_cons_of_mem _ hb) p hpd
      · have : p = (x.vendor, x.amount) := by simpa using hpx
        subst this
        exact hp'.1 b hb
    · exact hp'.2

/-- C1.  The claim fails on the code: the breakdown at line 391 is a dict
comprehension, so for two records with the same vendor tag the later amount
overwrites the earlier one, and the breakdown values then sum to 20 while
the total is 30. -/
theorem C1_counterexample :
    vendor_breakdown
        [⟨strOf ("ENMAX"), 10, strOf ("2025-01-15")⟩,
         ⟨strOf ("ENMAX"), 20, strOf ("2025-01-20")⟩]
      = [(strOf ("ENMAX"), 20)] ∧
    dict_values_sum (vendor_breakdown
        [⟨strOf ("ENMAX"), 10, strOf ("2025-01-15")⟩,
         ⟨strOf ("ENMAX"), 20, strOf ("2025-01-20")⟩])
      ≠ total_utilities
        [⟨strOf ("ENMAX"), 10, strOf ("2025-01-15")⟩,
         ⟨strOf ("ENMAX"), 20, strOf ("2025-01-20")⟩] := by
  decide

/-- C1 (amended).  The breakdown maps a repeated vendor to the amount of
its last record, so the sum invariant holds exactly when the vendor tags
within the group are pairwise distinct: then the breakdown holds one
binding per record and its values sum to the total. -/
theorem C1_sum_invariant_distinct_vendors (bills : List Bill)
    (h : bills.Pairwise (fun a b => a.vendor ≠ b.vendor)) :
    dict_values_sum (vendor_breakdown bills) = total_utilities bills := by
  have hb := breakdown_fold_distinct bills [] (by simp) h
  unfold vendor_breakdown
  rw [hb]
  unfold dict_values_sum
  rw [foldl_add_eq, total_utilities_eq_sum]
  simp only [List.nil_append, zero_add, List.map_map]
  rfl

/-- C1 witness: a concrete two-vendor group with distinct tags. -/
theorem C1_sum_invariant_distinct_vendors_witness :
    dict_values_sum (vendor_breakdown
        [⟨strOf ("ENMAX"), 12345/100, strOf ("2025-10-03")⟩,
         ⟨strOf ("ATCO"), 6789/100, strOf ("2025-10-01")⟩])
      = total_utilities
        [⟨strOf ("ENMAX"), 12345/100, strOf ("2025-10-03")⟩,
         ⟨strOf ("ATCO"), 6789/100, strOf ("2025-10-01")⟩] :=
  C1_sum_invariant_distinct_vendors _ (by decide)

/-- C2.  The claim fails on the code: the pipeline sums amounts in binary
floating point (`float(...)` plus `sum(...)`), and for the two-decimal
batch [0.10, 0.20] the computed total is not the exact rational 0.30. -/
theorem C2_counterexample :
    code_total_utilities [1/10, 2/10] ≠ exact_total [1/10, 2/10] := by
  decide

/-- C2 (amended).  The currency arithmetic is IEEE-754 binary64
floating-point arithmetic, not exact decimal: the batch [0.10, 0.20] totals
the double 1351079888211149·2⁻⁵² (≈ 0.30000000000000004), strictly above
the exact 0.30 but within 2⁻⁵⁰ of it, and the final amount computed from
base rent 1150 and share 60% likewise differs from the exact rational
result. -/
theorem C2_float_arithmetic :
    code_total_utilities [1/10, 2/10] = 1351079888211149 / 2 ^ 52 ∧
    3/10 < code_total_utilities [1/10, 2/10] ∧
    code_total_utilities [1/10, 2/10] - 3/10 < 1 / 2 ^ 50 ∧
    code_final_amount 1150 60 (code_total_utilities [1/10, 2/10])
      ≠ exact_final 1150 60 (exact_total [1/10, 2/10]) := by
  decide

/-- C3.  The claim fails on the code: the fallback policy at line 37
requires the ENMAX vendor (its required-vendor set is not empty), and a
default-policy house whose only existing attachment is for ATCO fails with
a missing-required-vendor error instead of yielding a draft. -/
theorem C3_counterexample :
    (_get_house_policy (strOf ("9999"))).required_vendors ≠ [] ∧
    find_house_utility_images
        (fun s => s == img_name (strOf ("9999")) (strOf ("2025-01-31")) (strOf ("ATCO")))
        (strOf ("9999")) (strOf ("2025-01-31"))
        [⟨strOf ("ATCO"), 50, strOf ("2025-01-31")⟩]
      = Except.error
          (.missing_required_vendors (strOf ("9999")) (strOf ("2025-01-31")) [strOf ("ENMAX")]) := by
  decide

/-- Inserting into a sorted list adds one element. -/
theorem insertLex_length (s : Str) (l : List Str) :
    (insertLex s l).length = l.length + 1 := by
  induction l with
  | nil => rfl
  | cons t ts ih =>
    unfold insertLex
    by_cases h : lexLe s t = true
    · simp [h]
    · simp [h, ih]

/-- Sorting preserves length. -/
theorem sortedLex_length (l : List Str) : (sortedLex l).length = l.length := by
  induction l with
  | nil => rfl
  | cons s ss ih => simp [sortedLex, insertLex_length, ih]

/-- Sorting a nonempty list yields a nonempty list. -/
theorem sortedLex_ne_nil (l : List Str) (h : l ≠ []) : sortedLex l ≠ [] := by
  intro hc
  apply h
  have := sortedLex_length l
  rw [hc] at this
  exact List.length_eq_zero.mp this.symm

/-- When `find_house_utility_images` succeeds, the returned path list is
nonempty: its own guard (line 109-110) raises on an empty list before
returning. -/
theorem find_images_ok_ne_nil (ex : Str → Bool) (house month_date : Str)
    (bills : List Bill) (paths : List Str)
    (h : find_house_utility_images ex house month_date bills = Except.ok paths) :
    paths ≠ [] := by
  unfold find_house_utility_images at h
  set found := bills.filter (fun b => ex (img_name house b.date b.vendor)) with hfound
  by_cases h1 : (_get_house_policy house).required_vendors ≠ [] ∧
      ((_get_house_policy house).required_vendors.filter
        (fun v => !(found.map (fun b => b.vendor)).contains v)) ≠ []
  · simp only [← hfound, if_pos h1] at h
    exact absurd h (by simp)
  · simp only [← hfound, if_neg h1] at h
    by_cases h2 : found.map (fun b => img_name house b.date b.vendor) = []
    · rw [if_pos h2] at h
      exact absurd h (by simp)
    · rw [if_neg h2] at h
      have := Except.ok.inj h
      rw [← this]
      exact sortedLex_ne_nil _ h2

/-- When some required vendor has no existing attachment among the group's
bills, `find_house_utility_images` fails with the missing-vendor error
carrying the house, the period and a missing list containing that vendor. -/
theorem find_images_missing_vendor (ex : Str → Bool) (house month_date : Str)
    (bills : List Bill) (v : Str)
    (hv : v ∈ (_get_house_policy house).required_vendors)
    (hnone : ∀ b ∈ bills, b.vendor = v → ex (img_name house b.date b.vendor) = false) :
    ∃ missing, find_house_utility_images ex house month_date bills
        = Except.error (.missing_required_vendors house month_date missing) ∧
      v ∈ missing := by
  unfold find_house_utility_images
  set found := bills.filter (fun b => ex (img_name house b.date b.vendor)) with hfound
  have hnotmem : v ∉ found.map (fun b => b.vendor) := by
    intro hmem
    obtain ⟨b, hbf, hbv⟩ := List.mem_map.mp hmem
    have hb := List.mem_filter.mp (hfound ▸ hbf)
    exact absurd hb.2 (by rw [hnone b hb.1 hbv]; simp)
  have hcont : (found.map (fun b => b.vendor)).contains v = false := by
    simp only [List.contains_eq_any_beq, List.any_eq_false, beq_iff_eq]
    intro x hx hvx
    exact hnotmem (hvx ▸ hx)
  have hvm : v ∈ (_get_house_policy house).required_vendors.filter
      (fun v => !(found.map (fun b => b.vendor)).contains v) := by
    refine List.mem_filter.mpr ⟨hv, ?_⟩
    rw [hcont]
    rfl
  have hcond : (_get_house_policy house).required_vendors ≠ [] ∧
      ((_get_house_policy house).required_vendors.filter
        (fun v => !(found.map (fun b => b.vendor)).contains v)) ≠ [] :=
    ⟨List.ne_nil_of_mem hv, List.ne_nil_of_mem hvm⟩
  refine ⟨_, ?_, hvm⟩
  simp only [← hfound, if_pos hcond]

/-- The errors `find_house_utility_images` can raise are the
missing-vendor error and its own no-images error, never the guard error of
`create_email_draft`. -/
theorem find_images_error_cases (ex : Str → Bool) (house month_date : Str)
    (bills : List Bill) (e : DraftErr)
    (h : find_house_utility_images ex house month_date bills = Except.error e) :
    (∃ missing, e = .missing_required_vendors house month_date missing) ∨
      e = .no_images_found house month_date := by
  unfold find_house_utility_images at h
  set found := bills.filter (fun b => ex (img_name house b.date b.vendor)) with hfound
  by_cases h1 : (_get_house_policy house).required_vendors ≠ [] ∧
      ((_get_house_policy house).required_vendors.filter
        (fun v => !(found.map (fun b => b.vendor)).contains v)) ≠ []
  · simp only [← hfound, if_pos h1] at h
    exact Or.inl ⟨_, (Except.error.inj h).symm⟩
  · simp only [← hfound, if_neg h1] at h
    by_cases h2 : found.map (fun b => img_name house b.date b.vendor) = []
    · rw [if_pos h2] at h
      exact Or.inr (Except.error.inj h).symm
    · rw [if_neg h2] at h
      exact absurd h (by simp)

/-- A default-policy house whose group contains an ENMAX record with an
existing attachment passes the image lookup with a nonempty path list. -/
theorem find_images_ok_default (ex : Str → Bool) (house month_date : Str)
    (bills : List Bill) (b : Bill)
    (hpol : _get_house_policy house = default_policy)
    (hb : b ∈ bills) (hv : b.vendor = strOf ("ENMAX"))
    (hex : ex (img_name house b.date b.vendor) = true) :
    ∃ paths, find_house_utility_images ex house month_date bills = Except.ok paths ∧
      paths ≠ [] := by
  unfold find_house_utility_images
  set found := bills.filter (fun b => ex (img_name house b.date b.vendor)) with hfound
  have hbf : b ∈ found := hfound ▸ List.mem_filter.mpr ⟨hb, hex⟩
  rw [hpol]
  have hmiss : default_policy.required_vendors.filter
      (fun v => !(found.map (fun b => b.vendor)).contains v) = [] := by
    simp only [default_policy]
    simp
    exact ⟨b, hbf, hv⟩
  have hC : ¬(default_policy.required_vendors ≠ [] ∧
      default_policy.required_vendors.filter
        (fun v => !(found.map (fun b => b.vendor)).contains v) ≠ []) := by
    rw [hmiss]
    simp
  rw [if_neg hC]
  have hne : found.map (fun b => img_name house b.date b.vendor) ≠ [] :=
    List.ne_nil_of_mem (List.mem_map.mpr ⟨b, hbf, rfl⟩)
  rw [if_neg hne]
  exact ⟨_, rfl, sortedLex_ne_nil _ hne⟩

/-- C3 (amended).  Every house without a specific policy entry gets the
single default policy — which uses the single-amount template but requires
the ENMAX vendor — and a default-policy house yields a draft path list
precisely via an ENMAX attachment: an existing ENMAX attachment makes the
lookup succeed, whereas `C3_counterexample` shows a house with only an
ATCO attachment fails. -/
theorem C3_default_policy (house : Str) (ex : Str → Bool) (month_date : Str)
    (bills : List Bill) (b : Bill)
    (hlook : HOUSE_POLICIES.lookup house = none)
    (hb : b ∈ bills) (hv : b.vendor = strOf ("ENMAX"))
    (hex : ex (img_name house b.date b.vendor) = true) :
    _get_house_policy house = default_policy ∧
    default_policy.required_vendors = [strOf ("ENMAX")] ∧
    default_policy.template = strOf ("single_vendor") ∧
    ∃ paths, find_house_utility_images ex house month_date bills = Except.ok paths ∧
      paths ≠ [] := by
  have hpol : _get_house_policy house = default_policy := by
    unfold _get_house_policy
    rw [hlook]
    rfl
  exact ⟨hpol, rfl, rfl, find_images_ok_default ex house month_date bills b hpol hb hv hex⟩

/-- C3 witness: house 9999 (no specific entry) with an ENMAX bill whose
attachment exists. -/
theorem C3_default_policy_witness :
    _get_house_policy (strOf ("9999")) = default_policy ∧
    default_policy.required_vendors = [strOf ("ENMAX")] ∧
    default_policy.template = strOf ("single_vendor") ∧
    ∃ paths, find_house_utility_images
        (fun s => s == img_name (strOf ("9999")) (strOf ("2025-01-31")) (strOf ("ENMAX")))
        (strOf ("9999")) (strOf ("2025-01-31"))
        [⟨strOf ("ENMAX"), 50, strOf ("2025-01-31")⟩]
      = Except.ok paths ∧ paths ≠ [] :=
  C3_default_policy (strOf ("9999"))
    (fun s => s == img_name (strOf ("9999")) (strOf ("2025-01-31")) (strOf ("ENMAX")))
    (strOf ("2025-01-31"))
    [⟨strOf ("ENMAX"), 50, strOf ("2025-01-31")⟩]
    (Bill.mk (strOf ("ENMAX")) 50 (strOf ("2025-01-31")))
    (by decide) (by decide) rfl (by decide)

/-- C5.  For a house whose policy has required vendors, a required vendor
with no existing attachment makes the draft fail with the missing-vendor
error carrying the house, period and missing list; the house's entry in the
batch output is that error (no draft), and every house of the batch is
still processed independently (one output entry per group, each equal to
processing that group alone). -/
theorem C5_missing_required_vendor (ex : Str → Bool) (tenants : Str → Tenant)
    (groups : List HouseGroup) (g : HouseGroup) (v : Str)
    (hg : g ∈ groups) (hne : g.bills ≠ [])
    (hv : v ∈ (_get_house_policy g.house).required_vendors)
    (hnone : ∀ b ∈ g.bills, b.vendor = v →
      ex (img_name g.house b.date b.vendor) = false) :
    (∃ missing, process_house ex tenants g
        = Except.error (.missing_required_vendors g.house g.month_date missing) ∧
      v ∈ missing) ∧
    (g.house, process_house ex tenants g) ∈ generate_email_drafts ex tenants groups ∧
    (generate_email_drafts ex tenants groups).length = groups.length ∧
    ∀ g' ∈ groups, (g'.house, process_house ex tenants g')
      ∈ generate_email_drafts ex tenants groups := by
  obtain ⟨missing, hfe, hvm⟩ :=
    find_images_missing_vendor ex g.house g.month_date g.bills v hv hnone
  refine ⟨⟨missing, ?_, hvm⟩, ?_, ?_, ?_⟩
  · simp only [process_house, create_email_draft]
    rw [if_neg hne, hfe]
  · exact List.mem_map_of_mem _ hg
  · simp [generate_email_drafts]
  · intro g' hg'
    exact List.mem_map_of_mem _ hg'

/-- C5 witness: house 1705 (dual policy) with one ENMAX bill and no
existing attachments; ATCO is a required vendor with no attachment. -/
theorem C5_missing_required_vendor_witness :
    (∃ missing, process_house (fun _ => false) (fun _ => ⟨strOf ("T"), 1150, 60⟩)
        ⟨strOf ("1705"), strOf ("2025-10-31"), [⟨strOf ("ENMAX"), 100, strOf ("2025-10-03")⟩]⟩
        = Except.error (.missing_required_vendors (strOf ("1705")) (strOf ("2025-10-31")) missing) ∧
      strOf ("ATCO") ∈ missing) ∧
    (strOf ("1705"), process_house (fun _ => false) (fun _ => ⟨strOf ("T"), 1150, 60⟩)
        ⟨strOf ("1705"), strOf ("2025-10-31"), [⟨strOf ("ENMAX"), 100, strOf ("2025-10-03")⟩]⟩)
      ∈ generate_email_drafts (fun _ => false) (fun _ => ⟨strOf ("T"), 1150, 60⟩)
        [⟨strOf ("1705"), strOf ("2025-10-31"), [⟨strOf ("ENMAX"), 100, strOf ("2025-10-03")⟩]⟩] ∧
    (generate_email_drafts (fun _ => false) (fun _ => ⟨strOf ("T"), 1150, 60⟩)
        [⟨strOf ("1705"), strOf ("2025-10-31"), [⟨strOf ("ENMAX"), 100, strOf ("2025-10-03")⟩]⟩]).length
      = [HouseGroup.mk (strOf ("1705")) (strOf ("2025-10-31"))
          [⟨strOf ("ENMAX"), 100, strOf ("2025-10-03")⟩]].length ∧
    ∀ g' ∈ [HouseGroup.mk (strOf ("1705")) (strOf ("2025-10-31"))
        [⟨strOf ("ENMAX"), 100, strOf ("2025-10-03")⟩]],
      (g'.house, process_house (fun _ => false) (fun _ => ⟨strOf ("T"), 1150, 60⟩) g')
        ∈ generate_email_drafts (fun _ => false) (fun _ => ⟨strOf ("T"), 1150, 60⟩)
          [⟨strOf ("1705"), strOf ("2025-10-31"), [⟨strOf ("ENMAX"), 100, strOf ("2025-10-03")⟩]⟩] :=
  C5_missing_required_vendor _ _ _ _ (strOf ("ATCO"))
    (by decide) (by decide) (by decide) (by decide)

/-- C10.  After the `bills_data` branch, the "No utility bill images found"
guard never lets a draft through without attachments: with a nonempty
`bills_data` the guard's error branch is unreachable (the lookup either
fails or returns a nonempty list, and any produced draft has nonempty
attachments), while with `None` or empty `bills_data` the call fails by
reading the never-assigned local `image_paths` rather than raising the
guard's intended `ValueError`. -/
theorem C10_guard_unreachable (ex : Str → Bool) (tenants : Str → Tenant)
    (house month_date : Str) (total : ℚ) :
    (∀ bills : List Bill, bills ≠ [] →
      create_email_draft ex tenants house month_date total (some bills)
          ≠ Except.error (.no_images_guard house month_date) ∧
      ∀ d, create_email_draft ex tenants house month_date total (some bills)
          = Except.ok d → d.attachments ≠ []) ∧
    create_email_draft ex tenants house month_date total none
      = Except.error .unbound_local_image_paths ∧
    create_email_draft ex tenants house month_date total (some [])
      = Except.error .unbound_local_image_paths := by
  refine ⟨?_, rfl, rfl⟩
  intro bills hne
  simp only [create_email_draft]
  rw [if_neg hne]
  rcases hfr : find_house_utility_images ex house month_date bills with e | paths
  · constructor
    · simp only [hfr]
      intro hc
      have he := Except.error.inj hc
      rcases find_images_error_cases ex house month_date bills e hfr with ⟨miss, hm⟩ | hm <;>
        (rw [hm] at he; exact DraftErr.noConfusion he)
    · intro d hd
      simp [hfr] at hd
  · have hpne := find_images_ok_ne_nil ex house month_date bills paths hfr
    constructor
    · simp only [hfr]
      rw [if_neg hpne]
      intro hc
      exact Except.noConfusion hc
    · intro d hd
      simp only [hfr] at hd
      rw [if_neg hpne] at hd
      have := Except.ok.inj hd
      rw [← this]
      exact hpne

/-- C10 witness: a concrete nonempty group and the empty/None cases. -/
theorem C10_guard_unreachable_witness :
    create_email_draft (fun _ => true) (fun _ => ⟨strOf ("T"), 1150, 60⟩)
        (strOf ("1705")) (strOf ("2025-10-31")) 100
        (some [⟨strOf ("ENMAX"), 100, strOf ("2025-10-03")⟩])
      ≠ Except.error (.no_images_guard (strOf ("1705")) (strOf ("2025-10-31"))) ∧
    create_email_draft (fun _ => true) (fun _ => ⟨strOf ("T"), 1150, 60⟩)
        (strOf ("1705")) (strOf ("2025-10-31")) 100 none
      = Except.error .unbound_local_image_paths :=
  ⟨((C10_guard_unreachable (fun _ => true) (fun _ => ⟨strOf ("T"), 1150, 60⟩)
      (strOf ("1705")) (strOf ("2025-10-31")) 100).1
      [⟨strOf ("ENMAX"), 100, strOf ("2025-10-03")⟩] (by decide)).1,
   (C10_guard_unreachable (fun _ => true) (fun _ => ⟨strOf ("T"), 1150, 60⟩)
      (strOf ("1705")) (strOf ("2025-10-31")) 100).2.1⟩

/-- C6.  For a due-by month m in 1..12 and year Y the derived billing month
is exactly one calendar month earlier — month m−1 of Y for m > 1 and
December of Y−1 for m = 1 — and a due date parsed as January 2025 yields
billing month December 2024 (rendered "2024-12-01"). -/
theorem C6_previous_month (m y : ℤ) (h1 : 1 ≤ m) (h2 : m ≤ 12) :
    1 ≤ (_get_previous_month m y).1 ∧
    (_get_previous_month m y).1 ≤ 12 ∧
    (_get_previous_month m y).2 * 12 + (_get_previous_month m y).1 = y * 12 + m - 1 ∧
    (m = 1 → _get_previous_month m y = (12, y - 1)) ∧
    atco_bill_date 1 2025 = strOf ("2024-12-01") := by
  by_cases hm : m = 1
  · subst hm
    have h12 : _get_previous_month 1 y = (12, y - 1) := by simp [_get_previous_month]
    rw [h12]
    refine ⟨by norm_num, by norm_num, by ring, fun _ => rfl, by decide⟩
  · simp only [_get_previous_month, if_neg hm]
    refine ⟨by omega, by omega, by ring, fun h => absurd h hm, by decide⟩

/-- C6 witness: the January 2025 instance. -/
theorem C6_previous_month_witness :
    1 ≤ (_get_previous_month 1 2025).1 ∧
    (_get_previous_month 1 2025).1 ≤ 12 ∧
    (_get_previous_month 1 2025).2 * 12 + (_get_previous_month 1 2025).1 = 2025 * 12 + 1 - 1 ∧
    ((1 : ℤ) = 1 → _get_previous_month 1 2025 = (12, 2025 - 1)) ∧
    atco_bill_date 1 2025 = strOf ("2024-12-01") :=
  C6_previous_month 1 2025 (by decide) (by decide)

/-- Dropping a satisfied prefix twice is the same as once. -/
theorem dropWhile_idem (p : ℕ → Bool) (l : Str) :
    (l.dropWhile p).dropWhile p = l.dropWhile p := by
  induction l with
  | nil => rfl
  | cons a t ih =>
    by_cases h : p a = true
    · rw [List.dropWhile_cons_of_pos h]
      exact ih
    · rw [List.dropWhile_cons_of_neg (by simpa using h),
        List.dropWhile_cons_of_neg (by simpa using h)]

/-- A list whose head does not satisfy `p` is unchanged by `dropWhile`. -/
theorem dropWhile_eq_self_of_head (p : ℕ → Bool) (l : Str)
    (h : ∀ x, l.head? = some x → p x = false) : l.dropWhile p = l := by
  cases l with
  | nil => rfl
  | cons a t =>
    rw [List.dropWhile_cons_of_neg]
    simp [h a rfl]

/-- `dropWhile` removes a prefix. -/
theorem dropWhile_prefix_exists (p : ℕ → Bool) (l : Str) :
    ∃ s, l = s ++ l.dropWhile p := by
  induction l with
  | nil => exact ⟨[], rfl⟩
  | cons a t ih =>
    by_cases h : p a = true
    · obtain ⟨s, hs⟩ := ih
      rw [List.dropWhile_cons_of_pos h]
      exact ⟨a :: s, by rw [List.cons_append, ← hs]⟩
    · rw [List.dropWhile_cons_of_neg (by simpa using h)]
      exact ⟨[], rfl⟩

/-- If `dropWhile` leaves a cons unchanged, the head fails `p`. -/
theorem dropWhile_self_head_false (p : ℕ → Bool) (a : ℕ) (t : Str)
    (h : (a :: t).dropWhile p = a :: t) : p a = false := by
  by_cases hpa : p a = true
  · rw [List.dropWhile_cons_of_pos hpa] at h
    have hlen := congrArg List.length h
    have hle : (t.dropWhile p).length ≤ t.length := by
      obtain ⟨s, hs⟩ := dropWhile_prefix_exists p t
      calc (t.dropWhile p).length ≤ s.length + (t.dropWhile p).length := by omega
      _ = t.length := by rw [← List.length_append, ← hs]
    simp at hlen
    omega
  · simpa using hpa

/-- Right strip is idempotent. -/
theorem rstripBy_idem (p : ℕ → Bool) (l : Str) :
    rstripBy p (rstripBy p l) = rstripBy p l := by
  unfold rstripBy
  rw [List.reverse_reverse, dropWhile_idem]

/-- Right strip removes a suffix. -/
theorem rstripBy_prefix (p : ℕ → Bool) (l : Str) :
    ∃ s, l = rstripBy p l ++ s := by
  obtain ⟨s, hs⟩ := dropWhile_prefix_exists p l.reverse
  refine ⟨s.reverse, ?_⟩
  calc l = l.reverse.reverse := (List.reverse_reverse l).symm
  _ = (s ++ l.reverse.dropWhile p).reverse := by rw [← hs]
  _ = (l.reverse.dropWhile p).reverse ++ s.reverse := by rw [List.reverse_append]
  _ = rstripBy p l ++ s.reverse := rfl

/-- If `dropWhile` fixes `l`, it also fixes the right strip of `l`. -/
theorem dropWhile_rstripBy_self (p : ℕ → Bool) (l : Str)
    (hl : l.dropWhile p = l) : (rstripBy p l).dropWhile p = rstripBy p l := by
  obtain ⟨s, hs⟩ := rstripBy_prefix p l
  cases hB : rstripBy p l with
  | nil => rfl
  | cons a t =>
    apply dropWhile_eq_self_of_head
    intro x hx
    have hxa : x = a := (Option.some.inj hx).symm
    subst hxa
    rw [hB] at hs
    rw [hs] at hl
    exact dropWhile_self_head_false p x (t ++ s) (by simpa using hl)

/-- Python strip is idempotent. -/
theorem pystrip_idem (l : Str) : pystrip (pystrip l) = pystrip l := by
  unfold pystrip
  rw [dropWhile_rstripBy_self isSpaceCode _ (dropWhile_idem isSpaceCode l), rstripBy_idem]

/-- Python strip leaves a string without whitespace unchanged. -/
theorem pystrip_of_no_space (l : Str) (h : ∀ c ∈ l, isSpaceCode c = false) :
    pystrip l = l := by
  unfold pystrip
  have h1 : l.dropWhile isSpaceCode = l := by
    cases l with
    | nil => rfl
    | cons a t => exact List.dropWhile_cons_of_neg (by simp [h a (List.mem_cons_self a t)])
  rw [h1]
  unfold rstripBy
  have h2 : l.reverse.dropWhile isSpaceCode = l.reverse := by
    cases hr : l.reverse with
    | nil => rfl
    | cons a t =>
      refine List.dropWhile_cons_of_neg ?_
      have ha : a ∈ l := by
        rw [← List.mem_reverse, hr]
        exact List.mem_cons_self a t
      simp [h a ha]
  rw [h2, List.reverse_reverse]

/-- Upper-casing does not produce or consume whitespace. -/
theorem isSpace_upperC (c : ℕ) : isSpaceCode (upperC c) = isSpaceCode c := by
  by_cases h : 97 ≤ c ∧ c ≤ 122
  · have h1 : isSpaceCode c = false := by
      simp only [isSpaceCode, Bool.or_eq_false_iff, beq_eq_false_iff_ne]
      omega
    have h2 : isSpaceCode (c - 32) = false := by
      simp only [isSpaceCode, Bool.or_eq_false_iff, beq_eq_false_iff_ne]
      omega
    simp [upperC, if_pos h, h1, h2]
  · simp [upperC, if_neg h]

/-- ASCII upper-casing is idempotent. -/
theorem upperC_idem (c : ℕ) : upperC (upperC c) = upperC c := by
  unfold upperC
  split_ifs <;> omega

/-- Python strip commutes with upper-casing. -/
theorem pystrip_map_upperC (l : Str) :
    pystrip (l.map upperC) = (pystrip l).map upperC := by
  have hpf : (isSpaceCode ∘ upperC) = isSpaceCode := funext isSpace_upperC
  unfold pystrip rstripBy
  rw [List.dropWhile_map, hpf, ← List.map_reverse, List.dropWhile_map, hpf,
    List.map_reverse]

/-- Mapping the upper-casing twice equals mapping it once. -/
theorem map_upperC_idem (l : Str) : (l.map upperC).map upperC = l.map upperC := by
  have h : upperC ∘ upperC = upperC := funext upperC_idem
  rw [List.map_map, h]

/-- A string fixed by strip-and-uppercase that is nonempty is a fixed point
of the vendor normalization. -/
theorem norm_vendor_fix (w : Str) (hw : (pystrip w).map upperC = w) (hne : w ≠ []) :
    norm_vendor (some w) = w := by
  unfold norm_vendor
  simp only [Option.getD_some, hw]
  by_cases h1 : w = strOf ("ENMAX") ∨ w = strOf ("ATCO")
  · rw [if_pos h1]
  · rw [if_neg h1, if_neg hne]

/-- Strip-and-uppercase fixes any strip-and-uppercased string. -/
theorem strip_upper_fix (x : Str) :
    (pystrip ((pystrip x).map upperC)).map upperC = (pystrip x).map upperC := by
  rw [pystrip_map_upperC, pystrip_idem, map_upperC_idem]

/-- Vendor normalization is idempotent. -/
theorem norm_vendor_idem (v0 : Option Str) :
    norm_vendor (some (norm_vendor v0)) = norm_vendor v0 := by
  apply norm_vendor_fix
  · unfold norm_vendor
    by_cases h1 : (pystrip (v0.getD [])).map upperC = strOf ("ENMAX") ∨
        (pystrip (v0.getD [])).map upperC = strOf ("ATCO")
    · rw [if_pos h1]
      exact strip_upper_fix _
    · by_cases h2 : (pystrip (v0.getD [])).map upperC = []
      · rw [if_neg h1, if_pos h2]
        decide
      · rw [if_neg h1, if_neg h2]
        exact strip_upper_fix _
  · unfold norm_vendor
    by_cases h1 : (pystrip (v0.getD [])).map upperC = strOf ("ENMAX") ∨
        (pystrip (v0.getD [])).map upperC = strOf ("ATCO")
    · rw [if_pos h1]
      rcases h1 with h | h <;> rw [h] <;> decide
    · by_cases h2 : (pystrip (v0.getD [])).map upperC = []
      · rw [if_neg h1, if_pos h2]
        decide
      · rw [if_neg h1, if_neg h2]
        exact h2

/-- Amount normalization is idempotent. -/
theorem norm_amount_idem (a : PyVal) : norm_amount (norm_amount a) = norm_amount a := by
  cases a with
  | vNone => rfl
  | vStr s =>
    by_cases hs : s = []
    · subst hs
      rfl
    · cases hf : py_float_str s with
      | none => simp [norm_amount, hs, py_float, hf]
      | some q => simp [norm_amount, hs, py_float, hf]
  | vFloat q => simp [norm_amount, py_float]
  | vInt n => simp [norm_amount, py_float]

/-- House normalization is idempotent. -/
theorem norm_house_idem (h : PyVal) : norm_house (norm_house h) = norm_house h := by
  rcases hpi : py_int h with _ | n
  · have h1 : norm_house h = h := by simp [norm_house, hpi]
    rw [h1]
    exact h1
  · have h1 : norm_house h = .vInt n := by simp [norm_house, hpi]
    rw [h1]
    simp [norm_house, py_int]

/-- A digit code is not whitespace. -/
theorem digit_not_space (c : ℕ) (h : isDigitCode c = true) : isSpaceCode c = false := by
  simp only [isDigitCode, Bool.and_eq_true, decide_eq_true_eq] at h
  simp only [isSpaceCode, Bool.or_eq_false_iff, beq_eq_false_iff_ne]
  omega

/-- Every character of a rendered natural number is a digit. -/
theorem renderNatFuel_digits (f : ℕ) : ∀ n, ∀ c ∈ renderNatFuel f n, isDigitCode c = true := by
  induction f with
  | zero => intro n c hc; simp [renderNatFuel] at hc
  | succ f ih =>
    intro n c hc
    unfold renderNatFuel at hc
    by_cases h : n < 10
    · rw [if_pos h] at hc
      simp only [List.mem_singleton] at hc
      subst hc
      simp only [isDigitCode, Bool.and_eq_true, decide_eq_true_eq]
      omega
    · rw [if_neg h] at hc
      rcases List.mem_append.mp hc with h1 | h2
      · exact ih (n / 10) c h1
      · simp only [List.mem_singleton] at h2
        subst h2
        have : n % 10 < 10 := Nat.mod_lt n (by norm_num)
        simp only [isDigitCode, Bool.and_eq_true, decide_eq_true_eq]
        omega

/-- Rendering with sufficient fuel uses at most `f` characters. -/
theorem renderNatFuel_length_le (f : ℕ) : ∀ n, n < 10 ^ f → (renderNatFuel f n).length ≤ f := by
  induction f with
  | zero => intro n _; simp [renderNatFuel]
  | succ f ih =>
    intro n h
    unfold renderNatFuel
    by_cases h1 : n < 10
    · rw [if_pos h1]
      simp
    · rw [if_neg h1]
      have hdiv : n / 10 < 10 ^ f := by
        rw [Nat.div_lt_iff_lt_mul (by norm_num)]
        calc n < 10 ^ (f + 1) := h
        _ = 10 ^ f * 10 := pow_succ 10 f
      have := ih (n / 10) hdiv
      simp only [List.length_append, List.length_singleton]
      omega

/-- Rendering is fuel-invariant once the fuel covers the digit count. -/
theorem renderNatFuel_mono (f : ℕ) : ∀ g n, 1 ≤ f → f ≤ g → n < 10 ^ f →
    renderNatFuel f n = renderNatFuel g n := by
  induction f with
  | zero => intro g n h; omega
  | succ f ih =>
    intro g n _ hfg h
    obtain ⟨g', rfl⟩ : ∃ g', g = g' + 1 := ⟨g - 1, by omega⟩
    unfold renderNatFuel
    by_cases h1 : n < 10
    · rw [if_pos h1, if_pos h1]
    · rw [if_neg h1, if_neg h1]
      have hf1 : 1 ≤ f := by
        by_contra hf0
        have : f = 0 := by omega
        subst this
        simp at h
        omega
      have hdiv : n / 10 < 10 ^ f := by
        rw [Nat.div_lt_iff_lt_mul (by norm_num)]
        calc n < 10 ^ (f + 1) := h
        _ = 10 ^ f * 10 := pow_succ 10 f
      rw [ih g' (n / 10) hf1 (by omega) hdiv]

/-- The default rendering agrees with any sufficient fuel. -/
theorem renderNat_eq_fuel (w n : ℕ) (hw : 1 ≤ w) (h : n < 10 ^ w) :
    renderNat n = renderNatFuel w n := by
  unfold renderNat
  have hn : n < 10 ^ (n + 1) := by
    calc n < 10 ^ n := Nat.lt_pow_self (by norm_num) n
    _ ≤ 10 ^ (n + 1) := Nat.pow_le_pow_right (by norm_num) (by omega)
  by_cases hc : n + 1 ≤ w
  · exact renderNatFuel_mono (n + 1) w n (by omega) hc hn
  · exact (renderNatFuel_mono w (n + 1) n hw (by omega) h).symm

/-- Characters of the default rendering are digits. -/
theorem renderNat_digits (n : ℕ) : ∀ c ∈ renderNat n, isDigitCode c = true :=
  renderNatFuel_digits (n + 1) n

/-- Length bound for the default rendering. -/
theorem renderNat_length_le (w n : ℕ) (hw : 1 ≤ w) (h : n < 10 ^ w) :
    (renderNat n).length ≤ w := by
  rw [renderNat_eq_fuel w n hw h]
  exact renderNatFuel_length_le w n h

/-- Zero-padded rendering has exactly the requested width. -/
theorem padNat_length (w n : ℕ) (hw : 1 ≤ w) (h : n < 10 ^ w) :
    (padNat w n).length = w := by
  unfold padNat
  rw [List.length_append, List.length_replicate]
  have := renderNat_length_le w n hw h
  omega

/-- Characters of a zero-padded rendering are digits. -/
theorem padNat_digits (w n : ℕ) : ∀ c ∈ padNat w n, isDigitCode c = true := by
  intro c hc
  unfold padNat at hc
  rcases List.mem_append.mp hc with h1 | h2
  · have := List.eq_of_mem_replicate h1
    subst this
    decide
  · exact renderNat_digits n c h2

/-- A list of length 2 is a pair of elements. -/
theorem exists_len2 (l : Str) (h : l.length = 2) : ∃ a b, l = [a, b] := by
  match l, h with
  | [a, b], _ => exact ⟨a, b, rfl⟩

/-- A list of length 4 is a quadruple of elements. -/
theorem exists_len4 (l : Str) (h : l.length = 4) : ∃ a b c d, l = [a, b, c, d] := by
  match l, h with
  | [a, b, c, d], _ => exact ⟨a, b, c, d, rfl⟩

/-- The re-rendered loose date is in strict form. -/
theorem rendered_strict (y mo dd : ℕ) (hy : y < 10000) (hmo : mo < 100) (hdd : dd < 100) :
    is_strict_date (padNat 4 y ++ [45] ++ padNat 2 mo ++ [45] ++ padNat 2 dd) = true := by
  obtain ⟨a, b, c, d, hy4⟩ := exists_len4 (padNat 4 y) (padNat_length 4 y (by omega) (by simpa using hy))
  obtain ⟨e, f, hm2⟩ := exists_len2 (padNat 2 mo) (padNat_length 2 mo (by omega) (by simpa using hmo))
  obtain ⟨g, h, hd2⟩ := exists_len2 (padNat 2 dd) (padNat_length 2 dd (by omega) (by simpa using hdd))
  have hda := padNat_digits 4 y a (by rw [hy4]; simp)
  have hdb := padNat_digits 4 y b (by rw [hy4]; simp)
  have hdc := padNat_digits 4 y c (by rw [hy4]; simp)
  have hdd' := padNat_digits 4 y d (by rw [hy4]; simp)
  have hde := padNat_digits 2 mo e (by rw [hm2]; simp)
  have hdf := padNat_digits 2 mo f (by rw [hm2]; simp)
  have hdg := padNat_digits 2 dd g (by rw [hd2]; simp)
  have hdh := padNat_digits 2 dd h (by rw [hd2]; simp)
  rw [hy4, hm2, hd2]
  simp only [List.cons_append, List.nil_append, List.append_assoc]
  simp [is_strict_date, hda, hdb, hdc, hdd', hde, hdf, hdg, hdh]

/-- No character of a strict date is whitespace. -/
theorem strict_date_no_space (s : Str) (h : is_strict_date s = true) :
    ∀ c ∈ s, isSpaceCode c = false := by
  match s, h with
  | [c1, c2, c3, c4, s1, m1, m2, s2, d1, d2], h =>
    simp only [is_strict_date, Bool.and_eq_true, beq_iff_eq] at h
    obtain ⟨⟨⟨⟨⟨⟨⟨⟨⟨h1, h2⟩, h3⟩, h4⟩, h5⟩, h6⟩, h7⟩, h8⟩, h9⟩, h10⟩ := h
    intro c hc
    simp only [List.mem_cons, List.not_mem_nil, or_false] at hc
    rcases hc with rfl | rfl | rfl | rfl | rfl | rfl | rfl | rfl | rfl | rfl
    · exact digit_not_space c h1
    · exact digit_not_space c h2
    · exact digit_not_space c h3
    · exact digit_not_space c h4
    · rw [h5]; decide
    · exact digit_not_space c h6
    · exact digit_not_space c h7
    · rw [h8]; decide
    · exact digit_not_space c h9
    · exact digit_not_space c h10

/-- Upper bound on the value of a digit string. -/
theorem digitsValGo_lt (l : Str) : ∀ acc, (∀ c ∈ l, isDigitCode c = true) →
    digitsValGo acc l < (acc + 1) * 10 ^ l.length := by
  induction l with
  | nil =>
    intro acc _
    have h0 : digitsValGo acc [] = acc := rfl
    rw [h0, List.length_nil, pow_zero, mul_one]
    exact Nat.lt_succ_self acc
  | cons c r ih =>
    intro acc h
    have hc : c ≤ 57 := by
      have := h c (List.mem_cons_self c r)
      simp only [isDigitCode, Bool.and_eq_true, decide_eq_true_eq] at this
      omega
    have hrec := ih (10 * acc + (c - 48)) (fun x hx => h x (List.mem_cons_of_mem _ hx))
    have hstep : digitsValGo acc (c :: r) = digitsValGo (10 * acc + (c - 48)) r := rfl
    rw [hstep, List.length_cons]
    calc digitsValGo (10 * acc + (c - 48)) r
        < (10 * acc + (c - 48) + 1) * 10 ^ r.length := hrec
    _ ≤ ((acc + 1) * 10) * 10 ^ r.length := by
        have : 10 * acc + (c - 48) + 1 ≤ (acc + 1) * 10 := by omega
        exact Nat.mul_le_mul_right _ this
    _ = (acc + 1) * 10 ^ (r.length + 1) := by ring

/-- The value of a digit string is below `10 ^ length`. -/
theorem digitsVal_lt (l : Str) (h : ∀ c ∈ l, isDigitCode c = true) :
    digitsVal l < 10 ^ l.length := by
  have := digitsValGo_lt l 0 h
  simpa [digitsVal] using this

/-- Bounds on the groups returned by the loose date parse. -/
theorem parse_loose_bounds (s : Str) (y mo dd : ℕ)
    (h : parse_loose_date s = some (y, mo, dd)) :
    y < 10000 ∧ mo < 100 ∧ dd < 100 := by
  have hdigits : ∀ l : Str, ∀ c ∈ l.takeWhile isDigitCode, isDigitCode c = true :=
    fun l c hc => List.mem_takeWhile_imp hc
  simp only [parse_loose_date] at h
  split at h
  · exact absurd h (by simp)
  next h4 =>
    split at h
    next sep1 r2 heq =>
      split at h
      next hsep1 =>
        split at h
        next hml =>
          split at h
          next sep2 r4 heq2 =>
            split at h
            next hsep2 =>
              split at h
              next hdl =>
                have htrip := Option.some.inj h
                rw [Prod.mk.injEq, Prod.mk.injEq] at htrip
                obtain ⟨hy, hmo, hdd⟩ := htrip
                push_neg at h4
                refine ⟨?_, ?_, ?_⟩
                · rw [← hy]
                  have := digitsVal_lt _ (hdigits s)
                  rw [h4] at this
                  simpa using this
                · rw [← hmo]
                  have := digitsVal_lt _ (hdigits r2)
                  rcases hml with h1 | h1 <;> rw [h1] at this <;> omega
                · rw [← hdd]
                  have := digitsVal_lt _ (hdigits r4)
                  rcases hdl.1 with h1 | h1 <;> rw [h1] at this <;> omega
              next => exact absurd h (by simp)
            next => exact absurd h (by simp)
          next => exact absurd h (by simp)
        next => exact absurd h (by simp)
      next => exact absurd h (by simp)
    next => exact absurd h (by simp)

/-- A strict date is a fixed point of the date normalization. -/
theorem norm_date_strict_fix (s : Str) (hs : is_strict_date s = true) :
    norm_date (some s) = some s := by
  unfold norm_date
  simp only [Option.getD_some]
  rw [pystrip_of_no_space s (strict_date_no_space s hs), if_pos hs]

/-- Date normalization is idempotent. -/
theorem norm_date_idem (d0 : Option Str) : norm_date (norm_date d0) = norm_date d0 := by
  by_cases h1 : is_strict_date (pystrip (d0.getD [])) = true
  · have hout : norm_date d0 = some (pystrip (d0.getD [])) := by
      unfold norm_date
      rw [if_pos h1]
    rw [hout]
    exact norm_date_strict_fix _ h1
  · rcases hp : parse_loose_date (pystrip (d0.getD [])) with _ | ⟨y, mo, dd⟩
    · have hout : norm_date d0 = none := by
        unfold norm_date
        rw [if_neg h1, hp]
      rw [hout]
      decide
    · have hout : norm_date d0
          = some (padNat 4 y ++ [45] ++ padNat 2 mo ++ [45] ++ padNat 2 dd) := by
        unfold norm_date
        rw [if_neg h1, hp]
      rw [hout]
      have hb := parse_loose_bounds _ y mo dd hp
      exact norm_date_strict_fix _ (rendered_strict y mo dd hb.1 hb.2.1 hb.2.2)

/-- Every month length is at least 28 days. -/
theorem month_len_ge (y m : ℕ) : 28 ≤ month_len y m := by
  unfold month_len
  split_ifs <;> norm_num

/-- Every month length is at most 31 days. -/
theorem month_len_le (y m : ℕ) : month_len y m ≤ 31 := by
  unfold month_len
  split_ifs <;> norm_num

/-- Adding days that stay within the current month just moves the day. -/
theorem add_days_in_month (k : ℕ) : ∀ d : Date,
    d.day + k ≤ month_len d.year d.month → add_days k d = ⟨d.year, d.month, d.day + k⟩ := by
  induction k with
  | zero => intro d _; rfl
  | succ k ih =>
    intro d h
    have hlt : d.day < month_len d.year d.month := by omega
    have hnd : next_day d = ⟨d.year, d.month, d.day + 1⟩ := by
      unfold next_day
      rw [if_pos hlt]
    have hstep : add_days (k + 1) d = add_days k (next_day d) := rfl
    have hih := ih ⟨d.year, d.month, d.day + 1⟩ (by dsimp only; omega)
    dsimp only at hih
    rw [hstep, hnd, hih]
    congr 1
    omega

/-- Day addition splits over a sum. -/
theorem add_days_split (a : ℕ) : ∀ (b : ℕ) (d : Date),
    add_days (a + b) d = add_days b (add_days a d) := by
  induction a with
  | zero => intro b d; rw [Nat.zero_add]; rfl
  | succ a ih =>
    intro b d
    have h1 : a + 1 + b = (a + b) + 1 := by omega
    rw [h1]
    have h2 : add_days ((a + b) + 1) d = add_days (a + b) (next_day d) := rfl
    rw [h2, ih b (next_day d)]
    rfl

/-- Thirty-two days past the first of a month is in the following month
(year rollover at December), as the code's `replace(day=1) +
timedelta(days=32)` relies on. -/
theorem rent_month_eq (y m : ℕ) (hm1 : 1 ≤ m) (hm2 : m ≤ 12) :
    add_days 32 ⟨y, m, 1⟩
      = ⟨(if m = 12 then y + 1 else y), (if m = 12 then 1 else m + 1),
          33 - month_len y m⟩ := by
  have hL1 : 28 ≤ month_len y m := month_len_ge y m
  have hL2 : month_len y m ≤ 31 := month_len_le y m
  have h32 : 32 = (month_len y m - 1) + (33 - month_len y m) := by omega
  rw [h32, add_days_split]
  have h1 : add_days (month_len y m - 1) ⟨y, m, 1⟩ = ⟨y, m, month_len y m⟩ := by
    rw [add_days_in_month (month_len y m - 1) ⟨y, m, 1⟩ (by dsimp only; omega)]
    dsimp only
    congr 1
    omega
  rw [h1]
  have h3 : next_day ⟨y, m, month_len y m⟩
      = ⟨(if m = 12 then y + 1 else y), (if m = 12 then 1 else m + 1), 1⟩ := by
    unfold next_day
    simp only
    rw [if_neg (lt_irrefl (month_len y m))]
    by_cases hm : m = 12
    · subst hm
      rw [if_neg (by omega)]
      simp
    · rw [if_pos (by omega)]
      rw [if_neg hm, if_neg hm]
  have h2 : (33 - month_len y m) = (32 - month_len y m) + 1 := by omega
  rw [h2]
  have h4 : add_days ((32 - month_len y m) + 1) ⟨y, m, month_len y m⟩
      = add_days (32 - month_len y m) (next_day ⟨y, m, month_len y m⟩) := rfl
  rw [h4, h3]
  rw [add_days_in_month (32 - month_len y m) _ ?_]
  · dsimp only
    congr 1
    omega
  · have := month_len_ge (if m = 12 then y + 1 else y) (if m = 12 then 1 else m + 1)
    dsimp only
    omega

/-- Range facts validated by the strict-date parse. -/
theorem parse_iso_ranges (s : Str) (dt : Date) (h : parse_iso_date s = some dt) :
    1 ≤ dt.year ∧ 1 ≤ dt.month ∧ dt.month ≤ 12 ∧ 1 ≤ dt.day ∧
      dt.day ≤ month_len dt.year dt.month := by
  simp only [parse_iso_date] at h
  split at h
  · split at h
    next hd =>
      split at h
      next hr =>
        have := Option.some.inj h
        subst this
        exact ⟨hr.1, hr.2.1, hr.2.2.1, hr.2.2.2.1, hr.2.2.2.2⟩
      next => exact absurd h (by simp)
    next => exact absurd h (by simp)
  · exact absurd h (by simp)

/-- C4.  For every billing period date (year at most 9998, below the
`datetime` MAXYEAR boundary where the Python `+ timedelta(days=32)` would
overflow into the bare `except` fallback), the internal rent month is the
first day of the following calendar month — December periods roll to
January of the next year — the displayed rent date is that month's name
followed by " 01", and the subject names the billing period's own month.
The embedded `subject_of` faithfully models the code's re-parsing of the
rendered rent-date string with the hardcoded year 2025 (lines 168-181);
the theorem shows that computation is extensionally equal to deriving the
subject month directly from the canonical period date. -/
theorem C4_rent_date_and_subject (s : Str) (y m d : ℕ)
    (hp : parse_iso_date s = some ⟨y, m, d⟩) (_hy : y ≤ 9998) :
    rent_month_date s
      = some ⟨(if m = 12 then y + 1 else y), (if m = 12 then 1 else m + 1), 1⟩ ∧
    rent_date_of s = month_name (if m = 12 then 1 else m + 1) ++ strOf (" 01") ∧
    subject_of (rent_date_of s) = month_name m ++ strOf (" utility bill") := by
  obtain ⟨hy1, hm1, hm2, hd1, hd2⟩ := parse_iso_ranges s ⟨y, m, d⟩ hp
  simp only at hm1 hm2
  have hrmd : rent_month_date s
      = some ⟨(if m = 12 then y + 1 else y), (if m = 12 then 1 else m + 1), 1⟩ := by
    simp only [rent_month_date, hp]
    rw [rent_month_eq y m hm1 hm2]
  have hrd : rent_date_of s = month_name (if m = 12 then 1 else m + 1) ++ strOf (" 01") := by
    simp only [rent_date_of, hrmd]
  refine ⟨hrmd, hrd, ?_⟩
  rw [hrd]
  by_cases hm12 : m = 12
  · subst hm12
    decide
  · rw [if_neg hm12]
    have hm11 : m ≤ 11 := by omega
    interval_cases m <;> decide

/-- C4 witness: the December 2025 period rolls to a January 2026 rent date
with subject month December. -/
theorem C4_rent_date_and_subject_witness :
    rent_month_date (strOf ("2025-12-31"))
      = some ⟨(if 12 = 12 then 2025 + 1 else 2025), (if 12 = 12 then 1 else 12 + 1), 1⟩ ∧
    rent_date_of (strOf ("2025-12-31"))
      = month_name (if 12 = 12 then 1 else 12 + 1) ++ strOf (" 01") ∧
    subject_of (rent_date_of (strOf ("2025-12-31")))
      = month_name 12 ++ strOf (" utility bill") :=
  C4_rent_date_and_subject (strOf ("2025-12-31")) 2025 12 31 (by decide) (by decide)

/-- C9.  Normalization is idempotent: applying `normalize_row` to its own
output returns an identical record, field by field (vendor tag, amount,
date, and house-number representation). -/
theorem C9_normalize_idempotent (r : RawRow) :
    normalize_row (normalize_row r) = normalize_row r := by
  unfold normalize_row
  simp only [RawRow.mk.injEq]
  exact ⟨congrArg some (norm_vendor_idem r.vendor), norm_amount_idem r.bill_amount,
    norm_date_idem r.bill_date, norm_house_idem r.house_number⟩

/-- Membership in the length-descending insertion. -/
theorem mem_insert_len_desc (a x : Str) (l : List Str) :
    a ∈ insert_len_desc x l ↔ a = x ∨ a ∈ l := by
  induction l with
  | nil => simp [insert_len_desc]
  | cons y ys ih =>
    unfold insert_len_desc
    by_cases hc : y.length < x.length
    · simp [hc]
    · simp only [if_neg hc, List.mem_cons, ih]
      tauto

/-- Membership is preserved by the length-descending sort. -/
theorem mem_sort_len_desc (a : Str) (l : List Str) :
    a ∈ sort_len_desc l ↔ a ∈ l := by
  induction l with
  | nil => simp [sort_len_desc]
  | cons x xs ih => simp [sort_len_desc, mem_insert_len_desc, ih]

/-- Inserting preserves the length-descending pairwise order. -/
theorem pairwise_insert_len_desc (x : Str) (l : List Str)
    (h : l.Pairwise (fun a b => b.length ≤ a.length)) :
    (insert_len_desc x l).Pairwise (fun a b => b.length ≤ a.length) := by
  induction l with
  | nil => simp [insert_len_desc]
  | cons y ys ih =>
    rw [List.pairwise_cons] at h
    unfold insert_len_desc
    by_cases hc : y.length < x.length
    · rw [if_pos hc]
      refine List.pairwise_cons.mpr ⟨?_, List.pairwise_cons.mpr h⟩
      intro z hz
      rcases List.mem_cons.mp hz with rfl | hzt
      · exact Nat.le_of_lt hc
      · exact Nat.le_trans (h.1 z hzt) (Nat.le_of_lt hc)
    · rw [if_neg hc]
      refine List.pairwise_cons.mpr ⟨?_, ih h.2⟩
      intro z hz
      rcases (mem_insert_len_desc z x ys).mp hz with rfl | hzt
      · exact Nat.le_of_not_lt hc
      · exact h.1 z hzt

/-- The length-descending sort is sorted. -/
theorem pairwise_sort_len_desc (l : List Str) :
    (sort_len_desc l).Pairwise (fun a b => b.length ≤ a.length) := by
  induction l with
  | nil => simp [sort_len_desc]
  | cons x xs ih => exact pairwise_insert_len_desc x _ ih

/-- In a length-descending list, the first entry satisfying `p` is at least
as long as any entry satisfying `p`. -/
theorem find_first_longest (p : Str → Bool) (l : List Str)
    (hs : l.Pairwise (fun a b => b.length ≤ a.length)) (m : Str)
    (hf : l.find? p = some m) (x : Str) (hx : x ∈ l) (hpx : p x = true) :
    x.length ≤ m.length := by
  induction l with
  | nil => simp at hx
  | cons a t ih =>
    rw [List.pairwise_cons] at hs
    by_cases hpa : p a = true
    · rw [List.find?_cons_of_pos _ hpa] at hf
      have hm := Option.some.inj hf
      subst hm
      rcases List.mem_cons.mp hx with rfl | hxt
      · exact Nat.le_refl _
      · exact hs.1 x hxt
    · rw [List.find?_cons_of_neg _ (by simpa using hpa)] at hf
      rcases List.mem_cons.mp hx with rfl | hxt
      · exact absurd hpx hpa
      · exact ih hs.2 hf hxt

/-- A list with a matching entry has a first match. -/
theorem find_exists (p : Str → Bool) (l : List Str) (x : Str) (hx : x ∈ l)
    (hp : p x = true) : ∃ m, l.find? p = some m := by
  induction l with
  | nil => simp at hx
  | cons a t ih =>
    by_cases hpa : p a = true
    · exact ⟨a, List.find?_cons_of_pos _ hpa⟩
    · rw [List.find?_cons_of_neg _ (by simpa using hpa)]
      rcases List.mem_cons.mp hx with rfl | hxt
      · exact absurd hp hpa
      · exact ih hxt

/-- C7.  When the roster contains H2 and H2 (with H1 a proper prefix of it,
H2 = H1 ++ t) street-matches the text, the extraction loop never returns
H1: it tries longer roster strings first, so the returned house is at least
as long as H2; and when H2 is the unique longest street-matching roster
entry, the extraction returns exactly H2. -/
theorem C7_longest_house_first (houses : List Str) (text H1 H2 t : Str)
    (hsplit : H2 = H1 ++ t) (ht : t ≠ [])
    (hmem : H2 ∈ houses) (hmatch : street_search H2 text = true) :
    extract_house_number houses text ≠ some H1 ∧
    (∃ h, extract_house_number houses text = some h ∧ H2.length ≤ h.length ∧
      street_search h text = true) ∧
    ((∀ h ∈ houses, street_search h text = true → h.length < H2.length ∨ h = H2) →
      extract_house_number houses text = some H2) := by
  have hlen : H1.length < H2.length := by
    rw [hsplit, List.length_append]
    have := List.length_pos.mpr ht
    omega
  have hmem' : H2 ∈ sort_len_desc houses := (mem_sort_len_desc H2 houses).mpr hmem
  obtain ⟨m, hfm⟩ :=
    find_exists (fun h => street_search h text) (sort_len_desc houses) H2 hmem' hmatch
  have hmlen : H2.length ≤ m.length :=
    find_first_longest _ _ (pairwise_sort_len_desc houses) m hfm H2 hmem' hmatch
  have hpm : street_search m text = true := by
    have h2 := List.find?_some hfm
    simpa using h2
  have hm_mem : m ∈ houses :=
    (mem_sort_len_desc m houses).mp (List.mem_of_find?_eq_some hfm)
  refine ⟨?_, ⟨m, hfm, hmlen, hpm⟩, ?_⟩
  · intro hc
    rw [extract_house_number] at hc
    rw [hfm] at hc
    have := Option.some.inj hc
    subst this
    omega
  · intro huniq
    rw [extract_house_number, hfm]
    rcases huniq m hm_mem hpm with hlt | rfl
    · omega
    · rfl

/-- C7 witness: roster with "170" a proper prefix of "1705" and a text in
which "1705" is adjacent (through a word gap) to a street suffix. -/
theorem C7_longest_house_first_witness :
    extract_house_number [strOf ("170"), strOf ("1705")]
        (strOf ("SERVICE ADDRESS: 170517AVESW")) ≠ some (strOf ("170")) ∧
    extract_house_number [strOf ("170"), strOf ("1705")]
        (strOf ("SERVICE ADDRESS: 170517AVESW")) = some (strOf ("1705")) :=
  ⟨(C7_longest_house_first [strOf ("170"), strOf ("1705")]
      (strOf ("SERVICE ADDRESS: 170517AVESW")) (strOf ("170")) (strOf ("1705"))
      (strOf ("5")) (by decide) (by decide) (by decide) (by decide)).1,
   (C7_longest_house_first [strOf ("170"), strOf ("1705")]
      (strOf ("SERVICE ADDRESS: 170517AVESW")) (strOf ("170")) (strOf ("1705"))
      (strOf ("5")) (by decide) (by decide) (by decide) (by decide)).2.2 (by decide)⟩

/-- C8.  The claim fails on the code for layout A: the ENMAX amount regex
accepts only plain digits before the decimal point, so an amount written
with a thousands separator after the pre-authorized label is extracted as
null, not as the full value. -/
theorem C8_counterexample :
    extract_enmax_amount (strOf ("PreAuthorizedAmount $1,234.56")) = none := by
  decide

/-- C8 (amended).  Layout B strips thousands separators from the first
matching token after its labels (and its dollar sign is optional), and for
layout A the first plain-digit token with two decimals after a label is
extracted — but a comma-separated layout-A amount yields null. -/
theorem C8_amount_extraction :
    extract_atco_amount (strOf ("TOTAL AMOUNT DUE: $1,234.56")) = some (strOf ("1234.56")) ∧
    extract_atco_amount (strOf ("Amount Due 77.10")) = some (strOf ("77.10")) ∧
    extract_enmax_amount (strOf ("PreAuthorizedAmount $1234.56")) = some (strOf ("1234.56")) ∧
    extract_enmax_amount (strOf ("TotalCurrentCharges xx $11.22 and $33.44"))
      = some (strOf ("11.22")) ∧
    extract_enmax_amount (strOf ("PreAuthorizedAmount $1,234.56")) = none := by
  decide

end BillPipeline
